import Mathlib

/-!
Verification development for `src/computeEpilogosPart2_perChrom.cpp`.

The program computes, per genomic segment (one input line), a divergence
metric between observed chromatin-state data and a genome-wide background,
in three variants: `KLModel` (per-state, metric code 1), `KLsModel`
(per unordered state pair, code 2) and `KLssModel` (per epigenome-pair
ordered state pair, code 3).

Modelling conventions:
- `unsigned int` arithmetic is modelled on `ℕ`; where the C++ code can
  underflow an unsigned subtraction we use `usub32` (wrap modulo `2^32`).
- `float`/`double` log values are abstracted by a parameter `lg : ℕ → ℚ`
  standing for `fun k => log k`; the sentinel `-999999.` is the literal
  `-999999 : ℚ`.  All metric arithmetic is carried out exactly over `ℚ`;
  the claims treated here are about the algebraic structure of the
  computation, not about rounding of IEEE floats.
- `floor(e + fudge)` applied to expressions containing `sqrt` is modelled
  exactly over the reals and then rewritten, via the identity
  `⌊(√x + a) / b⌋ = (⌊√(b² x)⌋ + a b) / b` (for integer `a b` and
  integer/rational `x ≥ 0`, Nat division), into computable `Nat.sqrt`
  form.  The rewrites are noted at each definition.
- out-of-range `std::vector` indexing (undefined behaviour in C++) is
  modelled totally with `List.getD _ 0`.
-/

/-- Wrapping subtraction on 32-bit unsigned integers: models `a - b` where
`a` and `b` are C++ `unsigned int` values below `2^32`. -/
def usub32 (a b : ℕ) : ℕ := (a + (2 ^ 32 - b % 2 ^ 32)) % 2 ^ 32

/-- The constant `LOG2(0.6931471806)` from lines 267, 496 and 590 of the
source, as the exact rational value of that literal. -/
def LOG2q : ℚ := 6931471806 / 10000000000

/- ================== shared streaming state ================== -/

/-- The mutable per-line state shared by the three models: the counters
`m_numValsProcessedForGroup1/2`, the coordinates `m_curBegPos`/`m_curEndPos`
(`int` fields, `-1` when unset), and a variant-specific observation store
(`m_P1numerators`/`m_P2numerators` for variants 1 and 2,
`m_statePairGroupObservationsAtThisSite` for variant 3). -/
structure AccState (α : Type) where
  numValsProcessedForGroup1 : ℕ
  numValsProcessedForGroup2 : ℕ
  curBegPos : ℤ
  curEndPos : ℤ
  store : α

/-- Overwrite the two coordinate fields. -/
def setCoords {α : Type} (x y : ℤ) (s : AccState α) : AccState α :=
  { s with curBegPos := x, curEndPos := y }

/-- The coordinate-capturing block shared verbatim by the three
`processInputValue` implementations (lines 219-231, 457-469, 690-702):
when not writing null metrics and no observation has been consumed yet,
the first two tokens of a line are stored as begin/end positions; all
other tokens go to the variant-specific observation step. -/
def withCoords {α : Type} (writeNullMetric : Bool)
    (obsStep : AccState α → ℕ → Option (AccState α))
    (s : AccState α) (v : ℕ) : Option (AccState α) :=
  if writeNullMetric = false ∧ s.numValsProcessedForGroup1 = 0 ∧ s.curBegPos = -1 then
    some { s with curBegPos := (v : ℤ) }
  else if writeNullMetric = false ∧ s.numValsProcessedForGroup1 = 0 ∧ s.curEndPos = -1 then
    some { s with curEndPos := (v : ℤ) }
  else obsStep s v

/-- Feed the tokens of one line, left to right, to a `processInputValue`
step, stopping at the first error, as in the token loop of
`parseInputWriteOutput` (lines 893-904). -/
def runTokens {σ : Type} (step : σ → ℕ → Option σ) : σ → List ℕ → Option σ
  | s, [] => some s
  | s, v :: vs =>
    match step s v with
    | none => none
    | some t => runTokens step t vs

/- ================== variant 1 : KLModel ================== -/

/-- The immutable data `KLModel` holds after `getQcontrib` ran (once or
twice): `m_numStates`, the two group sizes, the background contribution
vectors `m_Q1contrib`/`m_Q2contrib` and the log table
`m_logsOfObservationTallies`. -/
structure KLConfig where
  numStates : ℕ
  group1size : ℕ
  group2size : ℕ
  Q1contrib : List ℚ
  Q2contrib : List ℚ
  logsOfObservationTallies : List ℚ

/-- Shared state type of variants 1 and 2: the store is the pair
(`m_P1numerators`, `m_P2numerators`) resp. (`m_Ps1numerators`,
`m_Ps2numerators`). -/
abbrev KLState : Type := AccState (List ℕ × List ℕ)

/-- Accessor for the group-1 numerator array. -/
def AccState.P1numerators (s : KLState) : List ℕ := s.store.1

/-- Accessor for the group-2 numerator array. -/
def AccState.P2numerators (s : KLState) : List ℕ := s.store.2

/-- The observation part of `KLModel::processInputValue` (lines 233-262):
excess-column detection against `m_numStates`, group-1/group-2 switching,
and the array write with post-incremented counter. -/
def obsStepV1 (cfg : KLConfig) (s : KLState) (v : ℕ) : Option KLState :=
  if s.numValsProcessedForGroup1 = cfg.numStates then
    if cfg.group2size = 0 then none
    else if s.numValsProcessedForGroup2 = cfg.numStates then none
    else some { s with
      store := (s.store.1, s.store.2.set s.numValsProcessedForGroup2 v),
      numValsProcessedForGroup2 := s.numValsProcessedForGroup2 + 1 }
  else some { s with
    store := (s.store.1.set s.numValsProcessedForGroup1 v, s.store.2),
    numValsProcessedForGroup1 := s.numValsProcessedForGroup1 + 1 }

/-- `KLModel::processInputValue` (lines 215-263). -/
def processInputValueV1 (cfg : KLConfig) (writeNullMetric : Bool) :
    KLState → ℕ → Option KLState :=
  withCoords writeNullMetric (obsStepV1 cfg)

/-- The fresh/reset state of `KLModel`: counters zero, coordinates `-1`
(lines 116-117 and 321-326); `m_P1numerators`/`m_P2numerators` are
zero-filled arrays sized like the corresponding `Q` vector (lines 183,
188). -/
def freshV1 (cfg : KLConfig) : KLState :=
  ⟨0, 0, -1, -1, (List.replicate cfg.Q1contrib.length 0, List.replicate cfg.Q2contrib.length 0)⟩

/-- The signed per-state term of `KLModel::computeAndWriteMetric`
(lines 275-294), for observed counts `c1` (group 1) and `c2` (group 2) at
state index `i`.  `term` starts at 0; a group-1 observation either sets it
to the sentinel background value or adds
`(P1[i]/denom1) * (log P1[i] + Q1[i])`; a group-2 observation either
overwrites the whole term with the negated sentinel or subtracts the
symmetric expression. -/
def termV1 (cfg : KLConfig) (c1 c2 : ℕ) (i : ℕ) : ℚ :=
  let denom1 : ℚ := LOG2q * (cfg.group1size : ℚ)
  let denom2 : ℚ := LOG2q * (cfg.group2size : ℚ)
  let t1 : ℚ :=
    if c1 ≠ 0 then
      if cfg.Q1contrib.getD i 0 < -999 then cfg.Q1contrib.getD i 0
      else 0 + ((c1 : ℚ) / denom1) *
        (cfg.logsOfObservationTallies.getD c1 0 + cfg.Q1contrib.getD i 0)
    else 0
  if cfg.group2size ≠ 0 ∧ c2 ≠ 0 then
    if cfg.Q2contrib.getD i 0 < -999 then -(cfg.Q2contrib.getD i 0)
    else t1 - ((c2 : ℚ) / denom2) *
      (cfg.logsOfObservationTallies.getD c2 0 + cfg.Q2contrib.getD i 0)
  else t1

/-- Result of one `KLModel::computeAndWriteMetric` evaluation: the total
metric `retVal` and the per-state breakdown `contribOfEachState`. -/
structure KLEval where
  retVal : ℚ
  contribOfEachState : List ℚ

/-- The metric loop of `KLModel::computeAndWriteMetric` (lines 265-299):
one pass over the state indices, accumulating `retVal` (signed term for a
single group, `|term|` when two groups are compared) and, when not in
null mode, recording each state's term. -/
def computeMetricV1 (cfg : KLConfig) (writeNullMetric : Bool) (s : KLState) : KLEval :=
  (List.range s.P1numerators.length).foldl (fun acc i =>
    let term := termV1 cfg (s.P1numerators.getD i 0) (s.P2numerators.getD i 0) i
    let acc1 := if writeNullMetric then acc
      else { acc with contribOfEachState := acc.contribOfEachState.set i term }
    { acc1 with retVal := acc1.retVal + (if cfg.group2size = 0 then term else |term|) })
  ⟨0, List.replicate cfg.numStates 0⟩

/-- The background-contribution vector built by `KLModel::getQcontrib`
from one line of tab-delimited tallies (lines 136-151): contribution
`log Nsites - log tally` per state, or the sentinel `-999999` for a zero
tally.  `lg` abstracts the `log` function. -/
def buildQcontrib (lg : ℕ → ℚ) (Nsites : ℕ) (tallies : List ℕ) : List ℚ :=
  tallies.map (fun t => if t = 0 then -999999 else lg Nsites - lg t)

/-- `KLModel::getQcontrib` group-size derivation (lines 182, 187):
`(unsigned) floor(totalNumTallies / Nsites + 0.01)`, exactly over `ℚ`. -/
def deriveGroupSizeV1 (totalNumTallies Nsites : ℕ) : ℕ :=
  (⌊(totalNumTallies : ℚ) / (Nsites : ℚ) + 1 / 100⌋).toNat

/-- The log table as first built by `getQcontrib` for group 1
(lines 198-203 resp. 406-411): an unused slot `0` followed by
`lg 1, …, lg bound`, where `bound` is `m_group1size` in variant 1 and
`m_group1size * (m_group1size - 1) / 2` in variant 2. -/
def buildLogTableFirst (lg : ℕ → ℚ) (bound : ℕ) : List ℚ :=
  0 :: (List.range bound).map (fun i => lg (i + 1))

/-- The log-table extension performed on the group-2 `getQcontrib` call
(lines 204-209 resp. 412-417): when group 2's bound exceeds the largest
cached argument, append `lg size, …, lg bound2`. -/
def extendLogTable (lg : ℕ → ℚ) (t : List ℚ) (bound2 : ℕ) : List ℚ :=
  if bound2 > t.length - 1 then
    t ++ (List.range (bound2 + 1 - t.length)).map (fun i => lg (t.length + i))
  else t

/- ================== variant 2 : KLsModel ================== -/

/-- The immutable data `KLsModel` holds after `getQcontrib`:
`m_Qs1contrib`/`m_Qs2contrib` and the shared fields as in variant 1
(the decomposition table is a pure function of `numStates`, given by
`statePairTable` below). -/
structure KLsConfig where
  numStates : ℕ
  group1size : ℕ
  group2size : ℕ
  Qs1contrib : List ℚ
  Qs2contrib : List ℚ
  logsOfObservationTallies : List ℚ

/-- `KLsModel::getQcontrib` group-size derivation (lines 390, 395):
`(unsigned) floor((sqrt(1 + 8·total/Nsites) + 1)/2 + 0.01)`.
Over the reals, `⌊(√x + 1)/2 + 1/100⌋ = ⌊(√x·50 + 51)/100⌋
= (⌊√(2500·x)⌋ + 51) / 100`, and for rational `x ≥ 0` one has
`⌊√x⌋ = Nat.sqrt ⌊x⌋`; this definition is that exact rewriting. -/
def deriveGroupSizeV2 (totalNumTallies Nsites : ℕ) : ℕ :=
  (Nat.sqrt (⌊2500 * (1 + 8 * (totalNumTallies : ℚ) / (Nsites : ℚ))⌋).toNat + 51) / 100

/-- `KLssModel::getQcontrib` group-size derivation (lines 650-653):
`(unsigned) floor(1 + sqrt(1 + 8·linenum)/2 + 0.001)`
`= (⌊√(1000000·(1+8·linenum))⌋ + 2002) / 2000` by the same exact
rewriting (the radicand is an integer here). -/
def deriveGroupSizeV3 (linenum : ℕ) : ℕ :=
  (Nat.sqrt (1000000 * (1 + 8 * linenum)) + 2002) / 2000

/-- The entry the decomposition loop of `KLsModel::getQcontrib`
(lines 429-447) stores at index `id` of
`m_unorderedStatePairDecompositions`: the loop writes index
`maxUniqueStatePairID - delta` for `delta = 0, …, maxUniqueStatePairID`,
so index `id` receives the value computed for
`delta = maxUniqueStatePairID - id`.
`delta_row = floor((-1 + sqrt(1 + 8·delta))/2 + 0.01)` is rewritten
exactly as `(Nat.sqrt (2500·(1+8·delta)) - 49) / 100` (the argument of
`Nat.sqrt` is at least 2500, so the outer subtraction cannot underflow);
the unsigned subtractions `delta - delta_row(delta_row+1)/2`,
`m_numStates - delta_row` and `m_numStates - delta_column` can underflow
and are modelled with `usub32`. -/
def decompEntry (numStates id : ℕ) : ℕ × ℕ :=
  let maxUniqueStatePairID := numStates * (numStates + 1) / 2 - 1
  let delta := maxUniqueStatePairID - id
  let delta_row := (Nat.sqrt (2500 * (1 + 8 * delta)) - 49) / 100
  let delta_column :=
    if delta ≤ 2 then (if delta = 2 then 1 else 0)
    else usub32 delta (delta_row * (delta_row + 1) / 2)
  (usub32 numStates delta_row, usub32 numStates delta_column)

/-- The full table `m_unorderedStatePairDecompositions` (size
`numStates(numStates+1)/2`, line 430). -/
def statePairTable (numStates : ℕ) : List (ℕ × ℕ) :=
  (List.range (numStates * (numStates + 1) / 2)).map (fun id => decompEntry numStates id)

/-- The observation part of `KLsModel::processInputValue` (lines 471-491);
identical to variant 1 except that the excess-column checks compare the
counters with the array sizes `m_Ps1numerators.size()` /
`m_Ps2numerators.size()`. -/
def obsStepV2 (s : KLState) (v : ℕ) : Option KLState :=
  if s.numValsProcessedForGroup1 = s.store.1.length then
    if s.numValsProcessedForGroup2 = s.store.2.length then none
    else some { s with
      store := (s.store.1, s.store.2.set s.numValsProcessedForGroup2 v),
      numValsProcessedForGroup2 := s.numValsProcessedForGroup2 + 1 }
  else some { s with
    store := (s.store.1.set s.numValsProcessedForGroup1 v, s.store.2),
    numValsProcessedForGroup1 := s.numValsProcessedForGroup1 + 1 }

/-- `KLsModel::processInputValue` (lines 453-492). -/
def processInputValueV2 (writeNullMetric : Bool) : KLState → ℕ → Option KLState :=
  withCoords writeNullMetric obsStepV2

/-- The fresh/reset state of `KLsModel` (lines 391, 396, 577-582). -/
def freshV2 (cfg : KLsConfig) : KLState :=
  ⟨0, 0, -1, -1,
    (List.replicate cfg.Qs1contrib.length 0, List.replicate cfg.Qs2contrib.length 0)⟩

/-- The signed per-state-pair term of `KLsModel::computeAndWriteMetric`
(lines 505-532); same shape as `termV1` with the pair-count denominators
`LOG2 * g * (g-1) / 2` of lines 497-498 (whose unsigned `g - 1` is
modelled with `usub32`). -/
def termV2 (cfg : KLsConfig) (c1 c2 : ℕ) (i : ℕ) : ℚ :=
  let denom1 : ℚ := LOG2q * (cfg.group1size : ℚ) * ((usub32 cfg.group1size 1 : ℕ) : ℚ) / 2
  let denom2 : ℚ := LOG2q * (cfg.group2size : ℚ) * ((usub32 cfg.group2size 1 : ℕ) : ℚ) / 2
  let t1 : ℚ :=
    if c1 ≠ 0 then
      if cfg.Qs1contrib.getD i 0 < -999 then cfg.Qs1contrib.getD i 0
      else 0 + ((c1 : ℚ) / denom1) *
        (cfg.logsOfObservationTallies.getD c1 0 + cfg.Qs1contrib.getD i 0)
    else 0
  if cfg.group2size ≠ 0 ∧ c2 ≠ 0 then
    if cfg.Qs2contrib.getD i 0 < -999 then -(cfg.Qs2contrib.getD i 0)
    else t1 - ((c2 : ℚ) / denom2) *
      (cfg.logsOfObservationTallies.getD c2 0 + cfg.Qs2contrib.getD i 0)
  else t1

/-- Result of one `KLsModel::computeAndWriteMetric` evaluation. -/
structure KLsEval where
  retVal : ℚ
  contribOfEachState : List ℚ
  contribOfMaxStatePairTerm : ℚ
  statePairWithMaxTerm1based : ℕ

/-- Add `x` to the element at index `j` (the `contribOfEachState[k] += e`
updates of lines 542-543 and 837-838). -/
def addAt (l : List ℚ) (j : ℕ) (x : ℚ) : List ℚ := l.set j (l.getD j 0 + x)

/-- The metric loop of `KLsModel::computeAndWriteMetric` (lines 494-547):
one pass over unordered-state-pair identifiers, accumulating `retVal`,
and, when not in null mode, tracking the dominant pair
(`statePairWithMaxTerm_1based`, initial value 0, updated to `i + 1`
whenever `|term|` strictly exceeds the previous maximum) and splitting
each term half-and-half onto the two states of the pair. -/
def computeMetricV2 (cfg : KLsConfig) (writeNullMetric : Bool) (s : KLState) : KLsEval :=
  (List.range s.P1numerators.length).foldl (fun acc i =>
    let term := termV2 cfg (s.P1numerators.getD i 0) (s.P2numerators.getD i 0) i
    let pr := (statePairTable cfg.numStates).getD i (0, 0)
    let acc1 := if writeNullMetric then acc
      else { acc with
        contribOfMaxStatePairTerm :=
          if |term| > |acc.contribOfMaxStatePairTerm| then term
          else acc.contribOfMaxStatePairTerm,
        statePairWithMaxTerm1based :=
          if |term| > |acc.contribOfMaxStatePairTerm| then i + 1
          else acc.statePairWithMaxTerm1based,
        contribOfEachState :=
          addAt (addAt acc.contribOfEachState (pr.1 - 1) ((1/2) * term)) (pr.2 - 1)
            ((1/2) * term) }
    { acc1 with retVal := acc1.retVal + (if cfg.group2size = 0 then term else |term|) })
  ⟨0, List.replicate cfg.numStates 0, 0, 0⟩

/-- The fold body of `computeMetricV2` in non-null mode
(lines 503-547 with `writeNullMetric = false`), named separately so that
its dominant-pair tracking can be analysed. -/
def stepV2 (cfg : KLsConfig) (P1 P2 : List ℕ) (acc : KLsEval) (i : ℕ) : KLsEval :=
  let term := termV2 cfg (P1.getD i 0) (P2.getD i 0) i
  let pr := (statePairTable cfg.numStates).getD i (0, 0)
  let acc1 :=
    { acc with
      contribOfMaxStatePairTerm :=
        if |term| > |acc.contribOfMaxStatePairTerm| then term
        else acc.contribOfMaxStatePairTerm,
      statePairWithMaxTerm1based :=
        if |term| > |acc.contribOfMaxStatePairTerm| then i + 1
        else acc.statePairWithMaxTerm1based,
      contribOfEachState :=
        addAt (addAt acc.contribOfEachState (pr.1 - 1) ((1/2) * term)) (pr.2 - 1)
          ((1/2) * term) }
  { acc1 with retVal := acc1.retVal + (if cfg.group2size = 0 then term else |term|) }

/- ================== variant 3 : KLssModel ================== -/

/-- The immutable data of `KLssModel`: `m_Qss1contrib`/`m_Qss2contrib`
as total maps (state-pair identifier → epigenome-pair index →
contribution; `getQcontrib` fills every key actually looked up). -/
structure KLssConfig where
  numStates : ℕ
  group1size : ℕ
  group2size : ℕ
  Qss1contrib : ℕ → ℕ → ℚ
  Qss2contrib : ℕ → ℕ → ℚ

/-- The diagonal-reflection canonicalization of
`KLssModel::processInputValue` (lines 688, 719-728): an ordered
state-pair identifier in the lower triangle of the `numStates × numStates`
matrix is remapped to its mirror in the upper triangle. -/
def statePairGroupID (numStates statePairID : ℕ) : ℕ :=
  if statePairID % numStates ≠ 0 then
    if statePairID / numStates + 1 > statePairID % numStates then
      numStates * (statePairID % numStates - 1) + (statePairID / numStates + 1)
    else statePairID
  else statePairID

/-- The arithmetic (row, column) decoding of a state-pair-group
identifier in `KLssModel::computeAndWriteMetric` (lines 796-802). -/
def decodeRC (numStates id : ℕ) : ℕ × ℕ :=
  if id % numStates = 0 then (id / numStates + 1 - 1, numStates)
  else (id / numStates + 1, id % numStates)

/-- The mirror of an ordered state-pair identifier: the identifier of the
same pair of states with row and column exchanged. -/
def mirrorID (numStates id : ℕ) : ℕ :=
  numStates * ((decodeRC numStates id).2 - 1) + (decodeRC numStates id).1

/-- Ordered insert into a sorted key/value list with a default for a
missing key and an update function for a present key; models lookups and
insertions on `std::map` (whose iteration order is ascending keys). -/
def insKey {α : Type} (k : ℕ) (d : α) (f : α → α) : List (ℕ × α) → List (ℕ × α)
  | [] => [(k, d)]
  | (k', a) :: rest =>
    if k < k' then (k, d) :: (k', a) :: rest
    else if k = k' then (k', f a) :: rest
    else (k', a) :: insKey k d f rest

/-- Ordered duplicate-free insert into a sorted list of naturals; models
`std::set<unsigned int>::insert`. -/
def insSortedNat (x : ℕ) : List ℕ → List ℕ
  | [] => [x]
  | y :: ys => if x < y then x :: y :: ys else if x = y then y :: ys else y :: insSortedNat x ys

/-- The observation store of `KLssModel`
(`m_statePairGroupObservationsAtThisSite`): canonical state-pair-group
identifier → (group-1 map, group-2 map), each mapping an ordered
state-pair identifier to the set of epigenome-pair indices at which it
was observed. -/
abbrev ObsMap : Type := List (ℕ × (List (ℕ × List ℕ) × List (ℕ × List ℕ)))

/-- State type of `KLssModel`. -/
abbrev KLssState : Type := AccState ObsMap

/-- The observation part of `KLssModel::processInputValue`
(lines 704-775): excess-column detection against the pair counts
`g(g-1)/2`, diagonal-reflection canonicalization, and registration of
(ordered identifier, running epigenome-pair counter) under the canonical
group, with the counter post-incremented. -/
def obsStepV3 (cfg : KLssConfig) (s : KLssState) (v : ℕ) : Option KLssState :=
  if s.numValsProcessedForGroup1 = cfg.group1size * (cfg.group1size - 1) / 2 then
    if s.numValsProcessedForGroup2 = cfg.group2size * (cfg.group2size - 1) / 2 then none
    else some { s with
      store := insKey (statePairGroupID cfg.numStates v)
        ([], [(v, [s.numValsProcessedForGroup2])])
        (fun p => (p.1,
          insKey v [s.numValsProcessedForGroup2]
            (insSortedNat s.numValsProcessedForGroup2) p.2))
        s.store,
      numValsProcessedForGroup2 := s.numValsProcessedForGroup2 + 1 }
  else some { s with
    store := insKey (statePairGroupID cfg.numStates v)
      ([(v, [s.numValsProcessedForGroup1])], [])
      (fun p => (insKey v [s.numValsProcessedForGroup1]
          (insSortedNat s.numValsProcessedForGroup1) p.1,
        p.2))
      s.store,
    numValsProcessedForGroup1 := s.numValsProcessedForGroup1 + 1 }

/-- `KLssModel::processInputValue` (lines 683-776). -/
def processInputValueV3 (cfg : KLssConfig) (writeNullMetric : Bool) :
    KLssState → ℕ → Option KLssState :=
  withCoords writeNullMetric (obsStepV3 cfg)

/-- The fresh/reset state of `KLssModel` (lines 873-877). -/
def freshV3 : KLssState := ⟨0, 0, -1, -1, []⟩

/-- The signed term of one state-pair group in
`KLssModel::computeAndWriteMetric` (lines 790-827): the sum of the
group-1 background contributions of all registered (identifier,
epigenome-pair) observations minus the corresponding group-2 sum. -/
def termV3 (cfg : KLssConfig) (e : ℕ × (List (ℕ × List ℕ) × List (ℕ × List ℕ))) : ℚ :=
  (e.2.1.map (fun pr => (pr.2.map (fun c => cfg.Qss1contrib pr.1 c)).sum)).sum
    - (e.2.2.map (fun pr => (pr.2.map (fun c => cfg.Qss2contrib pr.1 c)).sum)).sum

/-- Result of one `KLssModel::computeAndWriteMetric` evaluation. -/
structure KLssEval where
  retVal : ℚ
  contribOfEachState : List ℚ
  contribOfMaxStatePairGroupTerm : ℚ
  statePairGroupWithMaxTerm1based : ℕ

/-- The metric loop of `KLssModel::computeAndWriteMetric`
(lines 778-841): one pass over the observed state-pair groups in
ascending identifier order (`std::map` iteration), accumulating `retVal`
and, when not in null mode, the dominant group and the half-and-half
per-state split. -/
def computeMetricV3 (cfg : KLssConfig) (writeNullMetric : Bool) (s : KLssState) : KLssEval :=
  s.store.foldl (fun acc e =>
    let term := termV3 cfg e
    let rc := decodeRC cfg.numStates e.1
    let acc1 := if writeNullMetric then acc
      else { acc with
        contribOfMaxStatePairGroupTerm :=
          if |term| > |acc.contribOfMaxStatePairGroupTerm| then term
          else acc.contribOfMaxStatePairGroupTerm,
        statePairGroupWithMaxTerm1based :=
          if |term| > |acc.contribOfMaxStatePairGroupTerm| then e.1
          else acc.statePairGroupWithMaxTerm1based,
        contribOfEachState :=
          addAt (addAt acc.contribOfEachState (rc.1 - 1) ((1/2) * term)) (rc.2 - 1)
            ((1/2) * term) }
    { acc1 with retVal := acc1.retVal + (if cfg.group2size = 0 then term else |term|) })
  ⟨0, List.replicate cfg.numStates 0, 0, 0⟩

/- ================== the driver ================== -/

/-- The virtual interface `Model` as used by `parseInputWriteOutput`
(lines 24-32, 880-917): `size()`, `writingNulls()`, `processInputValue`
and `computeAndWriteMetric` (the latter returning the reset state and an
abstract output record). -/
structure SModel (σ Out : Type) where
  size : ℕ
  writingNulls : Bool
  processInputValue : σ → ℕ → Option σ
  computeAndWriteMetric : σ → σ × Out

/-- The per-line expected token count of `parseInputWriteOutput`
(line 886): `size()` in null mode, `size() + 2` otherwise. -/
def numExpected {σ Out : Type} (m : SModel σ Out) : ℕ :=
  if m.writingNulls then m.size else m.size + 2

/-- One iteration of the line loop of `parseInputWriteOutput`
(lines 888-915): feed every token to `processInputValue` (abort on
error), then check the token count against `numExpected` (abort on
mismatch), then produce this segment's output record. -/
def runLine {σ Out : Type} (m : SModel σ Out) (s : σ) (tokens : List ℕ) :
    Option (σ × Out) :=
  match runTokens m.processInputValue s tokens with
  | none => none
  | some s' =>
    if tokens.length = numExpected m then some (m.computeAndWriteMetric s') else none

/-- The whole `parseInputWriteOutput` loop over the lines of the input
file: the list of output records written so far, and the final state
(`none` after an abort). -/
def runLines {σ Out : Type} (m : SModel σ Out) (s : σ) :
    List (List ℕ) → List Out × Option σ
  | [] => ([], some s)
  | l :: ls =>
    match runLine m s l with
    | none => ([], none)
    | some (s', out) =>
      let r := runLines m s' ls
      (out :: r.1, r.2)

/-- Whether an observation step neither reads nor writes the coordinate
fields: used to relate null-mode and coordinate-mode processing. -/
def CoordBlind {α : Type} (obsStep : AccState α → ℕ → Option (AccState α)) : Prop :=
  ∀ (s : AccState α) (v : ℕ) (x y : ℤ),
    obsStep (setCoords x y s) v = (obsStep s v).map (setCoords x y)

/- ================== helper lemmas ================== -/

theorem usub32_eq_sub {a b : ℕ} (h : b ≤ a) (h2 : a < 2 ^ 32) : usub32 a b = a - b := by
  unfold usub32
  omega

theorem buildLogTableFirst_length (lg : ℕ → ℚ) (bound : ℕ) :
    (buildLogTableFirst lg bound).length = bound + 1 := by
  simp [buildLogTableFirst]

theorem extendLogTable_length (lg : ℕ → ℚ) (t : List ℚ) (bound2 : ℕ) (ht : 1 ≤ t.length) :
    (extendLogTable lg t bound2).length = max (t.length - 1) bound2 + 1 := by
  unfold extendLogTable
  split_ifs with h
  · simp only [List.length_append, List.length_map, List.length_range]
    omega
  · omega

/-- Claim C10: in variants 1 and 2 the log table built by `getQcontrib`
covers exactly the indices `0 .. bound` where `bound` is the group-1
maximum possible tally (`group1size`, resp.
`group1size*(group1size-1)/2`), extended to the group-2 bound when group
2's bound is larger; hence an observed count `c` indexes the table in
bounds if and only if `c` is at most the larger of the two bounds, and a
count exceeding that bound reads past the end of the table. -/
theorem C10_logTable_coverage :
    (∀ (lg : ℕ → ℚ) (g1 c : ℕ),
        (buildLogTableFirst lg g1).length = g1 + 1 ∧
        (c < (buildLogTableFirst lg g1).length ↔ c ≤ g1)) ∧
    (∀ (lg : ℕ → ℚ) (g1 g2 : ℕ), 1 ≤ g2 → ∀ c : ℕ,
        (extendLogTable lg (buildLogTableFirst lg g1) g2).length = max g1 g2 + 1 ∧
        (c < (extendLogTable lg (buildLogTableFirst lg g1) g2).length ↔ c ≤ max g1 g2)) ∧
    (∀ (lg : ℕ → ℚ) (g1 g2 : ℕ), 1 ≤ g2 → ∀ c : ℕ,
        (extendLogTable lg (buildLogTableFirst lg (g1 * (g1 - 1) / 2))
            (g2 * (g2 - 1) / 2)).length
          = max (g1 * (g1 - 1) / 2) (g2 * (g2 - 1) / 2) + 1 ∧
        (c < (extendLogTable lg (buildLogTableFirst lg (g1 * (g1 - 1) / 2))
            (g2 * (g2 - 1) / 2)).length ↔
          c ≤ max (g1 * (g1 - 1) / 2) (g2 * (g2 - 1) / 2))) := by
  refine ⟨fun lg g1 c => ?_, fun lg g1 g2 _ c => ?_, fun lg g1 g2 _ c => ?_⟩
  · rw [buildLogTableFirst_length]
    omega
  · rw [extendLogTable_length lg _ _ (by rw [buildLogTableFirst_length]; omega),
      buildLogTableFirst_length]
    omega
  · rw [extendLogTable_length lg _ _ (by rw [buildLogTableFirst_length]; omega),
      buildLogTableFirst_length]
    omega

/-- Witness for C10 at `lg = 0`, `g1 = 2`, `g2 = 3`, `c = 1`. -/
theorem C10_logTable_coverage_witness :
    (extendLogTable (fun _ => 0) (buildLogTableFirst (fun _ => 0) 2) 3).length = max 2 3 + 1 ∧
    (1 < (extendLogTable (fun _ => 0) (buildLogTableFirst (fun _ => 0) 2) 3).length ↔
      1 ≤ max 2 3) :=
  C10_logTable_coverage.2.1 (fun _ => 0) 2 3 (by decide) 1

/-- Claim C4: in variants 1 and 2, when group 2 is present, its observed
count is nonzero and its background contribution is the sentinel
`-999999`, the per-identifier term is assigned `-(-999999) = 999999`
outright, regardless of the group-1 data for that identifier. -/
theorem C4_group2_sentinel_override :
    (∀ (cfg : KLConfig) (c1 c2 i : ℕ), cfg.group2size ≠ 0 → c2 ≠ 0 →
        cfg.Q2contrib.getD i 0 = -999999 → termV1 cfg c1 c2 i = 999999) ∧
    (∀ (cfg : KLsConfig) (c1 c2 i : ℕ), cfg.group2size ≠ 0 → c2 ≠ 0 →
        cfg.Qs2contrib.getD i 0 = -999999 → termV2 cfg c1 c2 i = 999999) := by
  constructor
  · intro cfg c1 c2 i hg hc hq
    unfold termV1
    rw [if_pos ⟨hg, hc⟩, hq, if_pos (by norm_num)]
    norm_num
  · intro cfg c1 c2 i hg hc hq
    unfold termV2
    rw [if_pos ⟨hg, hc⟩, hq, if_pos (by norm_num)]
    norm_num

/-- Witness for C4: a two-group one-state configuration with a sentinel
group-2 background and a nonzero group-1 term that gets discarded. -/
theorem C4_group2_sentinel_override_witness :
    termV1 ⟨1, 1, 1, [5], [-999999], [0, 0]⟩ 1 1 0 = 999999 :=
  C4_group2_sentinel_override.1 ⟨1, 1, 1, [5], [-999999], [0, 0]⟩ 1 1 0
    (by decide) (by decide) (by norm_num)

/-- Claim C5: for any model, a line whose token count differs from the
expected count aborts the run with no output record for that segment,
leaving exactly the records of the previously completed segments. -/
theorem C5_column_count_abort {σ Out : Type} (m : SModel σ Out) (s s' : σ)
    (outs : List Out) (pre : List (List ℕ)) (bad : List ℕ) (rest : List (List ℕ))
    (hpre : runLines m s pre = (outs, some s')) (hnonempty : bad ≠ [])
    (hlen : bad.length ≠ numExpected m) :
    runLines m s (pre ++ bad :: rest) = (outs, none) := by
  induction pre generalizing s outs with
  | nil =>
    simp only [runLines, Prod.mk.injEq] at hpre
    obtain ⟨rfl, hs⟩ := hpre
    have hbad : runLine m s bad = none := by
      unfold runLine
      cases runTokens m.processInputValue s bad with
      | none => rfl
      | some t => simp [hlen]
    simp [runLines, hbad]
  | cons l ls ih =>
    simp only [runLines] at hpre ⊢
    cases hL : runLine m s l with
    | none => rw [hL] at hpre; simp at hpre
    | some p =>
      rw [hL] at hpre
      simp only [Prod.mk.injEq] at hpre
      obtain ⟨houts, hrest⟩ := hpre
      cases outs with
      | nil => simp at houts
      | cons o os =>
        simp only [List.cons.injEq] at houts
        obtain ⟨rfl, houts⟩ := houts
        have := ih p.1 os (by rw [Prod.ext_iff]; exact ⟨houts, hrest⟩)
        simp only [List.append_eq] at this ⊢
        rw [this]

/-- Witness for C5: a model expecting 5 tokens per line fed a 6-token
line after one good line; the good line's record survives, the bad line
produces none. -/
theorem C5_column_count_abort_witness :
    runLines (SModel.mk 3 false (fun s v => some (s + v)) (fun s => (0, s)) : SModel ℕ ℕ)
      0 ([[9, 9, 1, 2, 3]] ++ [1, 2, 3, 4, 5, 6] :: []) = ([24], none) :=
  C5_column_count_abort _ 0 0 [24] [[9, 9, 1, 2, 3]] [1, 2, 3, 4, 5, 6] []
    (by decide) (by decide) (by decide)

theorem exists_rc (n id : ℕ) (hn : 1 ≤ n) (h1 : 1 ≤ id) (h2 : id ≤ n * n) :
    ∃ r c, 1 ≤ r ∧ r ≤ n ∧ 1 ≤ c ∧ c ≤ n ∧ id = n * (r - 1) + c := by
  refine ⟨(id - 1) / n + 1, (id - 1) % n + 1, le_add_self, ?_, le_add_self, ?_, ?_⟩
  · have : (id - 1) / n < n := Nat.div_lt_iff_lt_mul (by omega) |>.mpr (by omega)
    omega
  · have := Nat.mod_lt (id - 1) (show 0 < n by omega)
    omega
  · have := Nat.div_add_mod (id - 1) n
    simp only [Nat.add_sub_cancel]
    omega

theorem rc_mod (n r c : ℕ) (hc : c < n) : (n * (r - 1) + c) % n = c := by
  rw [Nat.mul_add_mod, Nat.mod_eq_of_lt hc]

theorem rc_div (n r c : ℕ) (hn : 0 < n) (hc : c < n) : (n * (r - 1) + c) / n = r - 1 := by
  rw [Nat.mul_add_div hn, Nat.div_eq_of_lt hc, Nat.add_zero]

theorem statePairGroupID_eq (n r c : ℕ) (hr1 : 1 ≤ r) (hrn : r ≤ n)
    (hc1 : 1 ≤ c) (hcn : c ≤ n) :
    statePairGroupID n (n * (r - 1) + c) =
      if c < n ∧ c < r then n * (c - 1) + r else n * (r - 1) + c := by
  unfold statePairGroupID
  rcases Nat.lt_or_ge c n with hlt | hge
  · rw [rc_mod n r c hlt, rc_div n r c (by omega) hlt]
    have hrw : r - 1 + 1 = r := by omega
    rw [hrw]
    rcases Nat.lt_or_ge c r with hcr | hrc
    · rw [if_pos (by omega), if_pos (by omega), if_pos ⟨hlt, hcr⟩]
    · rw [if_pos (by omega), if_neg (by omega), if_neg (by omega)]
  · have hceq : c = n := by omega
    have hrw : n * (r - 1) + c = n * r := by
      obtain ⟨k, rfl⟩ := Nat.exists_eq_add_of_le hr1
      rw [hceq]
      simp only [Nat.add_sub_cancel_left]
      ring
    rw [hrw, Nat.mul_mod_right, if_neg (show ¬(0 ≠ 0) by simp), if_neg (by omega)]

theorem decodeRC_eq (n r c : ℕ) (hr1 : 1 ≤ r) (hc1 : 1 ≤ c) (hcn : c ≤ n) :
    decodeRC n (n * (r - 1) + c) = (r, c) := by
  unfold decodeRC
  rcases Nat.lt_or_ge c n with hlt | hge
  · rw [rc_mod n r c hlt, rc_div n r c (by omega) hlt, if_neg (by omega)]
    have hrw : r - 1 + 1 = r := by omega
    rw [hrw]
  · have hceq : c = n := by omega
    have hrw : n * (r - 1) + c = n * r := by
      obtain ⟨k, rfl⟩ := Nat.exists_eq_add_of_le hr1
      rw [hceq]
      simp only [Nat.add_sub_cancel_left]
      ring
    rw [hrw, Nat.mul_mod_right, if_pos rfl, Nat.mul_div_cancel_left r (show 0 < n by omega),
      hceq]
    simp

/-- Claim C6: in variant 3, for every ordered state-pair identifier in
`{1 .. numStates²}`, the diagonal-reflection canonicalization sends the
identifier and its row/column mirror to the same canonical state-pair
group, every canonical identifier decodes to a position on or above the
diagonal (row ≤ column), and canonicalization is idempotent. -/
theorem C6_diagonal_reflection (n id : ℕ) (hn : 1 ≤ n) (h1 : 1 ≤ id) (h2 : id ≤ n * n) :
    statePairGroupID n (mirrorID n id) = statePairGroupID n id ∧
    (decodeRC n (statePairGroupID n id)).1 ≤ (decodeRC n (statePairGroupID n id)).2 ∧
    statePairGroupID n (statePairGroupID n id) = statePairGroupID n id := by
  obtain ⟨r, c, hr1, hrn, hc1, hcn, rfl⟩ := exists_rc n id hn h1 h2
  have hmir : mirrorID n (n * (r - 1) + c) = n * (c - 1) + r := by
    unfold mirrorID
    rw [decodeRC_eq n r c hr1 hc1 hcn]
  have hmain := statePairGroupID_eq n r c hr1 hrn hc1 hcn
  have hswap := statePairGroupID_eq n c r hc1 hcn hr1 hrn
  rcases Nat.lt_or_ge c r with hcr | hrc
  · -- lower triangle: `c < r`; the identifier reflects to the pair (c, r)
    have h1eq : statePairGroupID n (n * (r - 1) + c) = n * (c - 1) + r := by
      rw [hmain, if_pos ⟨by omega, hcr⟩]
    have h2eq : statePairGroupID n (n * (c - 1) + r) = n * (c - 1) + r := by
      rw [hswap, if_neg (by omega)]
    refine ⟨?_, ?_, ?_⟩
    · rw [hmir, h2eq, h1eq]
    · rw [h1eq, decodeRC_eq n c r hc1 hr1 hrn]
      exact Nat.le_of_lt hcr
    · rw [h1eq]
      exact h2eq
  · -- on or above the diagonal: `r ≤ c`; the identifier is kept
    have h1eq : statePairGroupID n (n * (r - 1) + c) = n * (r - 1) + c := by
      rw [hmain, if_neg (by omega)]
    have h2eq : statePairGroupID n (n * (c - 1) + r) = n * (r - 1) + c := by
      rw [hswap]
      rcases Nat.lt_or_ge r c with hrc' | hceq
      · rw [if_pos ⟨by omega, hrc'⟩]
      · have heq : r = c := by omega
        subst heq
        rw [if_neg (by omega)]
    refine ⟨?_, ?_, ?_⟩
    · rw [hmir, h2eq, h1eq]
    · rw [h1eq, decodeRC_eq n r c hr1 hc1 hcn]
      exact hrc
    · rw [h1eq]
      exact h1eq

/-- Witness for C6 at `numStates = 3`, `id = 6` (the pair (2,3)). -/
theorem C6_diagonal_reflection_witness :
    statePairGroupID 3 (mirrorID 3 6) = statePairGroupID 3 6 ∧
    (decodeRC 3 (statePairGroupID 3 6)).1 ≤ (decodeRC 3 (statePairGroupID 3 6)).2 ∧
    statePairGroupID 3 (statePairGroupID 3 6) = statePairGroupID 3 6 :=
  C6_diagonal_reflection 3 6 (by decide) (by decide) (by decide)

theorem computeMetricV1_retVal_aux (cfg : KLConfig) (wn : Bool) (P1 P2 : List ℕ)
    (l : List ℕ) (acc : KLEval) :
    ((l.foldl (fun acc i =>
      let term := termV1 cfg (P1.getD i 0) (P2.getD i 0) i
      let acc1 := if wn then acc
        else { acc with contribOfEachState := acc.contribOfEachState.set i term }
      { acc1 with retVal := acc1.retVal + (if cfg.group2size = 0 then term else |term|) })
      acc).retVal)
    = acc.retVal + (l.map (fun i =>
        let t := termV1 cfg (P1.getD i 0) (P2.getD i 0) i
        if cfg.group2size = 0 then t else |t|)).sum := by
  induction l generalizing acc with
  | nil => simp
  | cons i l ih =>
    rw [List.foldl_cons, List.map_cons, List.sum_cons, ih]
    cases wn <;> simp <;> ring

theorem computeMetricV2_retVal_aux (cfg : KLsConfig) (wn : Bool) (P1 P2 : List ℕ)
    (l : List ℕ) (acc : KLsEval) :
    ((l.foldl (fun acc i =>
      let term := termV2 cfg (P1.getD i 0) (P2.getD i 0) i
      let pr := (statePairTable cfg.numStates).getD i (0, 0)
      let acc1 := if wn then acc
        else { acc with
          contribOfMaxStatePairTerm :=
            if |term| > |acc.contribOfMaxStatePairTerm| then term
            else acc.contribOfMaxStatePairTerm,
          statePairWithMaxTerm1based :=
            if |term| > |acc.contribOfMaxStatePairTerm| then i + 1
            else acc.statePairWithMaxTerm1based,
          contribOfEachState :=
            addAt (addAt acc.contribOfEachState (pr.1 - 1) ((1/2) * term)) (pr.2 - 1)
              ((1/2) * term) }
      { acc1 with retVal := acc1.retVal + (if cfg.group2size = 0 then term else |term|) })
      acc).retVal)
    = acc.retVal + (l.map (fun i =>
        let t := termV2 cfg (P1.getD i 0) (P2.getD i 0) i
        if cfg.group2size = 0 then t else |t|)).sum := by
  induction l generalizing acc with
  | nil => simp
  | cons i l ih =>
    rw [List.foldl_cons, List.map_cons, List.sum_cons, ih]
    cases wn <;> simp <;> ring

theorem computeMetricV3_retVal_aux (cfg : KLssConfig) (wn : Bool)
    (l : ObsMap) (acc : KLssEval) :
    ((l.foldl (fun acc e =>
      let term := termV3 cfg e
      let rc := decodeRC cfg.numStates e.1
      let acc1 := if wn then acc
        else { acc with
          contribOfMaxStatePairGroupTerm :=
            if |term| > |acc.contribOfMaxStatePairGroupTerm| then term
            else acc.contribOfMaxStatePairGroupTerm,
          statePairGroupWithMaxTerm1based :=
            if |term| > |acc.contribOfMaxStatePairGroupTerm| then e.1
            else acc.statePairGroupWithMaxTerm1based,
          contribOfEachState :=
            addAt (addAt acc.contribOfEachState (rc.1 - 1) ((1/2) * term)) (rc.2 - 1)
              ((1/2) * term) }
      { acc1 with retVal := acc1.retVal + (if cfg.group2size = 0 then term else |term|) })
      acc).retVal)
    = acc.retVal + (l.map (fun e =>
        if cfg.group2size = 0 then termV3 cfg e else |termV3 cfg e|)).sum := by
  induction l generalizing acc with
  | nil => simp
  | cons e l ih =>
    rw [List.foldl_cons, List.map_cons, List.sum_cons, ih]
    cases wn <;> simp <;> ring

/-- Claim C1: for every segment evaluation in every variant, `retVal`
equals the plain signed sum of the per-identifier (or per
state-pair-group) terms when only group 1 exists, and the sum of their
absolute values when two groups exist. -/
theorem C1_retVal_total_shape :
    (∀ (cfg : KLConfig) (wn : Bool) (s : KLState),
        (computeMetricV1 cfg wn s).retVal =
          if cfg.group2size = 0 then
            ((List.range s.P1numerators.length).map (fun i =>
              termV1 cfg (s.P1numerators.getD i 0) (s.P2numerators.getD i 0) i)).sum
          else
            ((List.range s.P1numerators.length).map (fun i =>
              |termV1 cfg (s.P1numerators.getD i 0) (s.P2numerators.getD i 0) i|)).sum) ∧
    (∀ (cfg : KLsConfig) (wn : Bool) (s : KLState),
        (computeMetricV2 cfg wn s).retVal =
          if cfg.group2size = 0 then
            ((List.range s.P1numerators.length).map (fun i =>
              termV2 cfg (s.P1numerators.getD i 0) (s.P2numerators.getD i 0) i)).sum
          else
            ((List.range s.P1numerators.length).map (fun i =>
              |termV2 cfg (s.P1numerators.getD i 0) (s.P2numerators.getD i 0) i|)).sum) ∧
    (∀ (cfg : KLssConfig) (wn : Bool) (s : KLssState),
        (computeMetricV3 cfg wn s).retVal =
          if cfg.group2size = 0 then (s.store.map (fun e => termV3 cfg e)).sum
          else (s.store.map (fun e => |termV3 cfg e|)).sum) := by
  refine ⟨fun cfg wn s => ?_, fun cfg wn s => ?_, fun cfg wn s => ?_⟩
  · unfold computeMetricV1
    rw [computeMetricV1_retVal_aux]
    rcases h : cfg.group2size with _ | g
    · simp [h]
    · simp [h]
  · unfold computeMetricV2
    rw [computeMetricV2_retVal_aux]
    rcases h : cfg.group2size with _ | g
    · simp [h]
    · simp [h]
  · unfold computeMetricV3
    rw [computeMetricV3_retVal_aux]
    rcases h : cfg.group2size with _ | g
    · simp [h]
    · simp [h]

theorem coordBlind_obsStepV1 (cfg : KLConfig) : CoordBlind (obsStepV1 cfg) := by
  rintro ⟨n1, n2, b, e, st⟩ v x y
  unfold obsStepV1 setCoords
  split_ifs <;> rfl

theorem coordBlind_obsStepV2 : CoordBlind obsStepV2 := by
  rintro ⟨n1, n2, b, e, st⟩ v x y
  unfold obsStepV2 setCoords
  split_ifs <;> rfl

theorem coordBlind_obsStepV3 (cfg : KLssConfig) : CoordBlind (obsStepV3 cfg) := by
  rintro ⟨n1, n2, b, e, st⟩ v x y
  unfold obsStepV3 setCoords
  split_ifs <;> rfl

theorem withCoords_true {α : Type} (obsStep : AccState α → ℕ → Option (AccState α))
    (s : AccState α) (v : ℕ) : withCoords true obsStep s v = obsStep s v := by
  simp [withCoords]

theorem coordBlind_preserves {α : Type} {obsStep : AccState α → ℕ → Option (AccState α)}
    (h : CoordBlind obsStep) {s t : AccState α} {v : ℕ} (hst : obsStep s v = some t) :
    t.curBegPos = s.curBegPos ∧ t.curEndPos = s.curEndPos := by
  have hself : setCoords s.curBegPos s.curEndPos s = s := by
    cases s
    rfl
  have hmap := h s v s.curBegPos s.curEndPos
  rw [hself, hst] at hmap
  simp only [Option.map_some'] at hmap
  have heq : t = setCoords s.curBegPos s.curEndPos t := Option.some.inj hmap
  have h1 : t.curBegPos = (setCoords s.curBegPos s.curEndPos t).curBegPos :=
    congrArg AccState.curBegPos heq
  have h2 : t.curEndPos = (setCoords s.curBegPos s.curEndPos t).curEndPos :=
    congrArg AccState.curEndPos heq
  exact ⟨h1, h2⟩

theorem runTokens_false_eq_true {α : Type} {obsStep : AccState α → ℕ → Option (AccState α)}
    (h : CoordBlind obsStep) (ts : List ℕ) :
    ∀ s : AccState α, s.curBegPos ≠ -1 → s.curEndPos ≠ -1 →
    runTokens (withCoords false obsStep) s ts = runTokens (withCoords true obsStep) s ts := by
  induction ts with
  | nil => intro s _ _; rfl
  | cons v vs ih =>
    intro s hb he
    have hstep : withCoords false obsStep s v = withCoords true obsStep s v := by
      rw [withCoords_true]
      unfold withCoords
      rw [if_neg (by simp [hb]), if_neg (by simp [he])]
    simp only [runTokens, hstep, withCoords_true]
    cases hv : obsStep s v with
    | none => rfl
    | some t =>
      obtain ⟨h1, h2⟩ := coordBlind_preserves h hv
      exact ih t (h1 ▸ hb) (h2 ▸ he)

theorem runTokens_true_setCoords {α : Type} {obsStep : AccState α → ℕ → Option (AccState α)}
    (h : CoordBlind obsStep) (ts : List ℕ) :
    ∀ (s : AccState α) (x y : ℤ),
    runTokens (withCoords true obsStep) (setCoords x y s) ts
      = (runTokens (withCoords true obsStep) s ts).map (setCoords x y) := by
  induction ts with
  | nil => intro s x y; rfl
  | cons v vs ih =>
    intro s x y
    simp only [runTokens, withCoords_true, h s v x y]
    cases hv : obsStep s v with
    | none => rfl
    | some t => exact ih t x y

theorem runTokens_null_equiv {α : Type} {obsStep : AccState α → ℕ → Option (AccState α)}
    (h : CoordBlind obsStep) (st : α) (b e : ℕ) (obs : List ℕ) :
    runTokens (withCoords false obsStep) ⟨0, 0, -1, -1, st⟩ (b :: e :: obs)
      = (runTokens (withCoords true obsStep) ⟨0, 0, -1, -1, st⟩ obs).map
          (setCoords (b : ℤ) (e : ℤ)) := by
  have hb : ((b : ℤ) ≠ -1) := by omega
  have he : ((e : ℤ) ≠ -1) := by omega
  have step1 : withCoords false obsStep (⟨0, 0, -1, -1, st⟩ : AccState α) b
      = some ⟨0, 0, (b : ℤ), -1, st⟩ := by
    unfold withCoords
    rw [if_pos ⟨rfl, rfl, rfl⟩]
  have step2 : withCoords false obsStep (⟨0, 0, (b : ℤ), -1, st⟩ : AccState α) e
      = some ⟨0, 0, (b : ℤ), (e : ℤ), st⟩ := by
    unfold withCoords
    rw [if_neg (by simp [hb]), if_pos ⟨rfl, rfl, rfl⟩]
  simp only [runTokens, step1, step2]
  rw [runTokens_false_eq_true h obs _ hb he]
  have hset : (⟨0, 0, (b : ℤ), (e : ℤ), st⟩ : AccState α)
      = setCoords (b : ℤ) (e : ℤ) ⟨0, 0, -1, -1, st⟩ := rfl
  rw [hset, runTokens_true_setCoords h obs]

theorem computeMetricV1_setCoords (cfg : KLConfig) (wn : Bool) (x y : ℤ) (t : KLState) :
    computeMetricV1 cfg wn (setCoords x y t) = computeMetricV1 cfg wn t := rfl

theorem computeMetricV2_setCoords (cfg : KLsConfig) (wn : Bool) (x y : ℤ) (t : KLState) :
    computeMetricV2 cfg wn (setCoords x y t) = computeMetricV2 cfg wn t := rfl

theorem computeMetricV3_setCoords (cfg : KLssConfig) (wn : Bool) (x y : ℤ) (t : KLssState) :
    computeMetricV3 cfg wn (setCoords x y t) = computeMetricV3 cfg wn t := rfl

theorem computeMetricV1_retVal_wn (cfg : KLConfig) (t : KLState) :
    (computeMetricV1 cfg false t).retVal = (computeMetricV1 cfg true t).retVal := by
  unfold computeMetricV1
  rw [computeMetricV1_retVal_aux, computeMetricV1_retVal_aux]

theorem computeMetricV2_retVal_wn (cfg : KLsConfig) (t : KLState) :
    (computeMetricV2 cfg false t).retVal = (computeMetricV2 cfg true t).retVal := by
  unfold computeMetricV2
  rw [computeMetricV2_retVal_aux, computeMetricV2_retVal_aux]

theorem computeMetricV3_retVal_wn (cfg : KLssConfig) (t : KLssState) :
    (computeMetricV3 cfg false t).retVal = (computeMetricV3 cfg true t).retVal := by
  unfold computeMetricV3
  rw [computeMetricV3_retVal_aux, computeMetricV3_retVal_aux]

/-- Claim C7: for every variant and every segment, the total metric
computed in null mode on the observation tokens equals the total metric
computed in non-null mode on the same observation tokens preceded by the
two coordinate tokens; the `writingNulls` flag never changes the
aggregate value (both sides are `none` together when the line is
rejected). -/
theorem C7_null_mode_same_retVal :
    (∀ (cfg : KLConfig) (b e : ℕ) (obs : List ℕ),
      (runTokens (processInputValueV1 cfg false) (freshV1 cfg) (b :: e :: obs)).map
          (fun s => (computeMetricV1 cfg false s).retVal)
        = (runTokens (processInputValueV1 cfg true) (freshV1 cfg) obs).map
          (fun s => (computeMetricV1 cfg true s).retVal)) ∧
    (∀ (cfg : KLsConfig) (b e : ℕ) (obs : List ℕ),
      (runTokens (processInputValueV2 false) (freshV2 cfg) (b :: e :: obs)).map
          (fun s => (computeMetricV2 cfg false s).retVal)
        = (runTokens (processInputValueV2 true) (freshV2 cfg) obs).map
          (fun s => (computeMetricV2 cfg true s).retVal)) ∧
    (∀ (cfg : KLssConfig) (b e : ℕ) (obs : List ℕ),
      (runTokens (processInputValueV3 cfg false) freshV3 (b :: e :: obs)).map
          (fun s => (computeMetricV3 cfg false s).retVal)
        = (runTokens (processInputValueV3 cfg true) freshV3 obs).map
          (fun s => (computeMetricV3 cfg true s).retVal)) := by
  refine ⟨fun cfg b e obs => ?_, fun cfg b e obs => ?_, fun cfg b e obs => ?_⟩
  · unfold processInputValueV1 freshV1
    rw [runTokens_null_equiv (coordBlind_obsStepV1 cfg)]
    cases runTokens (withCoords true (obsStepV1 cfg))
        ⟨0, 0, -1, -1,
          (List.replicate cfg.Q1contrib.length 0, List.replicate cfg.Q2contrib.length 0)⟩
        obs with
    | none => rfl
    | some t =>
      simp only [Option.map_some']
      rw [computeMetricV1_setCoords, computeMetricV1_retVal_wn]
  · unfold processInputValueV2 freshV2
    rw [runTokens_null_equiv coordBlind_obsStepV2]
    cases runTokens (withCoords true obsStepV2)
        ⟨0, 0, -1, -1,
          (List.replicate cfg.Qs1contrib.length 0, List.replicate cfg.Qs2contrib.length 0)⟩
        obs with
    | none => rfl
    | some t =>
      simp only [Option.map_some']
      rw [computeMetricV2_setCoords, computeMetricV2_retVal_wn]
  · unfold processInputValueV3 freshV3
    rw [runTokens_null_equiv (coordBlind_obsStepV3 cfg)]
    cases runTokens (withCoords true (obsStepV3 cfg)) ⟨0, 0, -1, -1, []⟩ obs with
    | none => rfl
    | some t =>
      simp only [Option.map_some']
      rw [computeMetricV3_setCoords, computeMetricV3_retVal_wn]

theorem deriveGroupSizeV1_eq_div (total N : ℕ) (hN : 1 ≤ N) :
    deriveGroupSizeV1 total N = (100 * total + N) / (100 * N) := by
  unfold deriveGroupSizeV1
  have hNQ : ((N : ℕ) : ℚ) ≠ 0 := Nat.cast_ne_zero.mpr (by omega)
  have harg : (total : ℚ) / (N : ℚ) + 1 / 100
      = ((100 * total + N : ℕ) : ℚ) / ((100 * N : ℕ) : ℚ) := by
    push_cast
    field_simp
    ring
  rw [harg, Rat.floor_natCast_div_natCast, ← Int.natCast_div, Int.toNat_natCast]

theorem deriveGroupSizeV2_of_sq (N k s : ℕ) (hN : 1 ≤ N)
    (hsq : 2500 * (1 + 8 * k) = s * s) :
    deriveGroupSizeV2 (N * k) N = (s + 51) / 100 := by
  unfold deriveGroupSizeV2
  have hNQ : ((N : ℕ) : ℚ) ≠ 0 := Nat.cast_ne_zero.mpr (by omega)
  have harg : 2500 * (1 + 8 * ((N * k : ℕ) : ℚ) / ((N : ℕ) : ℚ))
      = ((2500 * (1 + 8 * k) : ℕ) : ℚ) := by
    push_cast
    field_simp
    ring
  rw [harg, Int.floor_natCast, Int.toNat_natCast, hsq, Nat.sqrt_eq]

theorem deriveGroupSizeV3_of_sq (k s : ℕ) (hsq : 1000000 * (1 + 8 * k) = s * s) :
    deriveGroupSizeV3 k = (s + 2002) / 2000 := by
  unfold deriveGroupSizeV3
  rw [hsq, Nat.sqrt_eq]

theorem pairCount_double (j : ℕ) : 2 * ((1 + j) * (1 + j - 1) / 2) = (1 + j) * j := by
  have hsub : 1 + j - 1 = j := by omega
  rw [hsub]
  obtain ⟨c, hc⟩ := Nat.even_mul_succ_self j
  have h2 : (1 + j) * j = j * (j + 1) := by ring
  omega

theorem deriveGroupSizeV2_exact (g N : ℕ) (hg : 1 ≤ g) (hN : 1 ≤ N) :
    deriveGroupSizeV2 (N * (g * (g - 1) / 2)) N = g := by
  obtain ⟨j, rfl⟩ := Nat.exists_eq_add_of_le hg
  have hev := pairCount_double j
  have hx : (100 * j + 50) * (100 * j + 50) = 2500 * (4 * (j * j) + 4 * j + 1) := by ring
  have h2 : (1 + j) * j = j * j + j := by ring
  have hsq : 2500 * (1 + 8 * ((1 + j) * (1 + j - 1) / 2))
      = (100 * j + 50) * (100 * j + 50) := by omega
  rw [deriveGroupSizeV2_of_sq N _ _ hN hsq]
  omega

theorem deriveGroupSizeV3_exact (g : ℕ) (hg : 1 ≤ g) :
    deriveGroupSizeV3 (g * (g - 1) / 2) = g := by
  obtain ⟨j, rfl⟩ := Nat.exists_eq_add_of_le hg
  have hev := pairCount_double j
  have hx : (2000 * j + 1000) * (2000 * j + 1000)
      = 1000000 * (4 * (j * j) + 4 * j + 1) := by ring
  have h2 : (1 + j) * j = j * j + j := by ring
  have hsq : 1000000 * (1 + 8 * ((1 + j) * (1 + j - 1) / 2))
      = (2000 * j + 1000) * (2000 * j + 1000) := by omega
  rw [deriveGroupSizeV3_of_sq _ _ hsq]
  omega

theorem deriveGroupSizeV1_exact (g N : ℕ) (hN : 1 ≤ N) :
    deriveGroupSizeV1 (g * N) N = g := by
  rw [deriveGroupSizeV1_eq_div _ _ hN]
  have h1 : 100 * (g * N) + N = N * (100 * g + 1) := by ring
  have h2 : 100 * N = N * 100 := by ring
  rw [h1, h2, Nat.mul_div_mul_left _ _ (show 0 < N by omega)]
  omega

/-- Claim C3: for every variant, a synthetic background built for a known
group size `g` and `Nsites` (variant 1: tallies summing to `g * Nsites`;
variant 2: tallies summing to `Nsites * g(g-1)/2`; variant 3: a matrix
with `g(g-1)/2` rows) makes the builder's derivation formula return
exactly `g`. -/
theorem C3_groupSize_roundTrip :
    (∀ (tallies : List ℕ) (g N : ℕ), 1 ≤ g → 1 ≤ N → tallies.sum = g * N →
        deriveGroupSizeV1 tallies.sum N = g) ∧
    (∀ (tallies : List ℕ) (g N : ℕ), 1 ≤ g → 1 ≤ N →
        tallies.sum = N * (g * (g - 1) / 2) →
        deriveGroupSizeV2 tallies.sum N = g) ∧
    (∀ (rows : List (List ℕ)) (g : ℕ), 1 ≤ g → rows.length = g * (g - 1) / 2 →
        deriveGroupSizeV3 rows.length = g) := by
  refine ⟨fun tallies g N _ hN hsum => ?_, fun tallies g N hg hN hsum => ?_,
    fun rows g hg hlen => ?_⟩
  · rw [hsum]
    exact deriveGroupSizeV1_exact g N hN
  · rw [hsum]
    exact deriveGroupSizeV2_exact g N hg hN
  · rw [hlen]
    exact deriveGroupSizeV3_exact g hg

/-- Witness for C3: `g = 2`, `Nsites = 5` for variants 1 and 2 (tally
lists `[4,0,6]` and `[5]`), and a one-row matrix for variant 3. -/
theorem C3_groupSize_roundTrip_witness :
    deriveGroupSizeV1 (List.sum [4, 0, 6]) 5 = 2 ∧
    deriveGroupSizeV2 (List.sum [5]) 5 = 2 ∧
    deriveGroupSizeV3 (List.length [[0, 0, 0, 0]]) = 2 :=
  ⟨C3_groupSize_roundTrip.1 [4, 0, 6] 2 5 (by decide) (by decide) (by decide),
   C3_groupSize_roundTrip.2.1 [5] 2 5 (by decide) (by decide) (by decide),
   C3_groupSize_roundTrip.2.2 [[0, 0, 0, 0]] 2 (by decide) (by decide)⟩

/-- Counterexample to C8 as stated: for the variant-1 background line
`[3]` with `Nsites = 2`, the builder derives group size
`floor(3/2 + 0.01) = 1`, while the nearest integer to `3/2` is `2`. -/
theorem C8_round_counterexample :
    deriveGroupSizeV1 (List.sum [3]) 2 = 1 ∧
    round ((List.sum [3] : ℕ) / (2 : ℚ)) = 2 ∧
    deriveGroupSizeV1 (List.sum [3]) 2 ≠ (round ((List.sum [3] : ℕ) / (2 : ℚ))).toNat := by
  have hsum : List.sum [3] = 3 := by decide
  have h1 : deriveGroupSizeV1 (List.sum [3]) 2 = 1 := by
    rw [hsum, deriveGroupSizeV1_eq_div 3 2 (by decide)]
  have h2 : round ((List.sum [3] : ℕ) / (2 : ℚ)) = 2 := by
    rw [hsum, round_eq]
    have : ((3 : ℕ) : ℚ) / 2 + 1 / 2 = ((2 : ℤ) : ℚ) := by norm_num
    rw [this, Int.floor_intCast]
  exact ⟨h1, h2, by rw [h1, h2]; decide⟩

/-- Claim C8, amended: the implied variant-1 group size is
`floor(sum(tallies)/Nsites + 0.01)` — equivalently, the integer quotient
`(100·sum + Nsites) / (100·Nsites)` — not the nearest integer; the
concrete part of the claim stands: background `[4,0,6]` with `Nsites = 5`
yields 3 states, group size 2, the sentinel `-999999` for state 2, and
contributions `log 5 - log 4` and `log 5 - log 6` for states 1 and 3. -/
theorem C8_groupSize_floor :
    (∀ lg : ℕ → ℚ, buildQcontrib lg 5 [4, 0, 6] = [lg 5 - lg 4, -999999, lg 5 - lg 6]) ∧
    (∀ lg : ℕ → ℚ, (buildQcontrib lg 5 [4, 0, 6]).length = 3) ∧
    deriveGroupSizeV1 (List.sum [4, 0, 6]) 5 = 2 ∧
    (∀ total N : ℕ, 1 ≤ N →
        deriveGroupSizeV1 total N = (100 * total + N) / (100 * N)) := by
  refine ⟨fun lg => ?_, fun lg => ?_, ?_, fun total N hN => ?_⟩
  · simp [buildQcontrib]
  · simp [buildQcontrib]
  · have hsum : List.sum [4, 0, 6] = 2 * 5 := by decide
    rw [hsum]
    exact deriveGroupSizeV1_exact 2 5 (by decide)
  · exact deriveGroupSizeV1_eq_div total N hN

/-- Witness for C8 (amended): the quotient form evaluated at
`total = 3`, `Nsites = 2`. -/
theorem C8_groupSize_floor_witness :
    deriveGroupSizeV1 3 2 = (100 * 3 + 2) / (100 * 2) :=
  C8_groupSize_floor.2.2.2 3 2 (by decide)

theorem stepV2_idx (cfg : KLsConfig) (P1 P2 : List ℕ) (acc : KLsEval) (i : ℕ) :
    (stepV2 cfg P1 P2 acc i).statePairWithMaxTerm1based =
      if |termV2 cfg (P1.getD i 0) (P2.getD i 0) i| > |acc.contribOfMaxStatePairTerm|
      then i + 1 else acc.statePairWithMaxTerm1based := rfl

theorem stepV2_mx (cfg : KLsConfig) (P1 P2 : List ℕ) (acc : KLsEval) (i : ℕ) :
    (stepV2 cfg P1 P2 acc i).contribOfMaxStatePairTerm =
      if |termV2 cfg (P1.getD i 0) (P2.getD i 0) i| > |acc.contribOfMaxStatePairTerm|
      then termV2 cfg (P1.getD i 0) (P2.getD i 0) i
      else acc.contribOfMaxStatePairTerm := rfl

theorem computeMetricV2_false_eq (cfg : KLsConfig) (s : KLState) :
    computeMetricV2 cfg false s =
      (List.range s.P1numerators.length).foldl
        (stepV2 cfg s.P1numerators s.P2numerators)
        ⟨0, List.replicate cfg.numStates 0, 0, 0⟩ := by
  unfold computeMetricV2 stepV2
  congr 1

theorem stepV2_fold_zero (cfg : KLsConfig) (P1 P2 : List ℕ) (l : List ℕ) :
    ∀ acc : KLsEval, (∀ i ∈ l, termV2 cfg (P1.getD i 0) (P2.getD i 0) i = 0) →
    (l.foldl (stepV2 cfg P1 P2) acc).statePairWithMaxTerm1based
        = acc.statePairWithMaxTerm1based ∧
    (l.foldl (stepV2 cfg P1 P2) acc).contribOfMaxStatePairTerm
        = acc.contribOfMaxStatePairTerm := by
  induction l with
  | nil => exact fun acc _ => ⟨rfl, rfl⟩
  | cons i l ih =>
    intro acc hz
    have hzi : termV2 cfg (P1.getD i 0) (P2.getD i 0) i = 0 := hz i (by simp)
    have hcond : ¬(|termV2 cfg (P1.getD i 0) (P2.getD i 0) i|
        > |acc.contribOfMaxStatePairTerm|) := by
      rw [hzi]
      simp [abs_nonneg]
    rw [List.foldl_cons]
    obtain ⟨h1, h2⟩ := ih (stepV2 cfg P1 P2 acc i) (fun j hj => hz j (by simp [hj]))
    rw [h1, h2, stepV2_idx, stepV2_mx, if_neg hcond, if_neg hcond]
    exact ⟨rfl, rfl⟩

theorem stepV2_fold_invariant (cfg : KLsConfig) (P1 P2 : List ℕ) (L : ℕ) (l : List ℕ) :
    ∀ acc : KLsEval, (∀ i ∈ l, i < L) →
    ((acc.statePairWithMaxTerm1based = 0 ∧ acc.contribOfMaxStatePairTerm = 0) ∨
      (1 ≤ acc.statePairWithMaxTerm1based ∧ acc.statePairWithMaxTerm1based ≤ L ∧
        acc.contribOfMaxStatePairTerm ≠ 0)) →
    (((l.foldl (stepV2 cfg P1 P2) acc).statePairWithMaxTerm1based = 0 ∧
        (l.foldl (stepV2 cfg P1 P2) acc).contribOfMaxStatePairTerm = 0) ∨
      (1 ≤ (l.foldl (stepV2 cfg P1 P2) acc).statePairWithMaxTerm1based ∧
        (l.foldl (stepV2 cfg P1 P2) acc).statePairWithMaxTerm1based ≤ L ∧
        (l.foldl (stepV2 cfg P1 P2) acc).contribOfMaxStatePairTerm ≠ 0)) := by
  induction l with
  | nil => exact fun acc _ h => h
  | cons i l ih =>
    intro acc hb hinv
    rw [List.foldl_cons]
    refine ih (stepV2 cfg P1 P2 acc i) (fun j hj => hb j (by simp [hj])) ?_
    rcases lt_or_le |acc.contribOfMaxStatePairTerm|
        |termV2 cfg (P1.getD i 0) (P2.getD i 0) i| with hgt | hle
    · right
      rw [stepV2_idx, stepV2_mx, if_pos hgt, if_pos hgt]
      have hiL : i < L := hb i (by simp)
      refine ⟨by omega, by omega, ?_⟩
      intro h0
      rw [h0] at hgt
      simp [abs_nonneg] at hgt
      exact absurd hgt (not_lt.mpr (abs_nonneg _))
    · rw [stepV2_idx, stepV2_mx, if_neg (not_lt.mpr hle), if_neg (not_lt.mpr hle)]
      exact hinv

theorem stepV2_step_strong (cfg : KLsConfig) (P1 P2 : List ℕ) (L : ℕ) (acc : KLsEval)
    (i : ℕ) (hiL : i < L)
    (h : 1 ≤ acc.statePairWithMaxTerm1based ∧ acc.statePairWithMaxTerm1based ≤ L ∧
      acc.contribOfMaxStatePairTerm ≠ 0) :
    1 ≤ (stepV2 cfg P1 P2 acc i).statePairWithMaxTerm1based ∧
      (stepV2 cfg P1 P2 acc i).statePairWithMaxTerm1based ≤ L ∧
      (stepV2 cfg P1 P2 acc i).contribOfMaxStatePairTerm ≠ 0 := by
  rcases lt_or_le |acc.contribOfMaxStatePairTerm|
      |termV2 cfg (P1.getD i 0) (P2.getD i 0) i| with hgt | hle
  · rw [stepV2_idx, stepV2_mx, if_pos hgt, if_pos hgt]
    refine ⟨by omega, by omega, ?_⟩
    intro h0
    rw [h0] at hgt
    exact absurd hgt (not_lt.mpr (abs_nonneg _))
  · rw [stepV2_idx, stepV2_mx, if_neg (not_lt.mpr hle), if_neg (not_lt.mpr hle)]
    exact h

theorem stepV2_fold_preserve (cfg : KLsConfig) (P1 P2 : List ℕ) (L : ℕ) (l : List ℕ) :
    ∀ acc : KLsEval, (∀ i ∈ l, i < L) →
    (1 ≤ acc.statePairWithMaxTerm1based ∧ acc.statePairWithMaxTerm1based ≤ L ∧
      acc.contribOfMaxStatePairTerm ≠ 0) →
    (1 ≤ (l.foldl (stepV2 cfg P1 P2) acc).statePairWithMaxTerm1based ∧
      (l.foldl (stepV2 cfg P1 P2) acc).statePairWithMaxTerm1based ≤ L ∧
      (l.foldl (stepV2 cfg P1 P2) acc).contribOfMaxStatePairTerm ≠ 0) := by
  induction l with
  | nil => exact fun acc _ h => h
  | cons i l ih =>
    intro acc hb h
    rw [List.foldl_cons]
    exact ih (stepV2 cfg P1 P2 acc i) (fun j hj => hb j (by simp [hj]))
      (stepV2_step_strong cfg P1 P2 L acc i (hb i (by simp)) h)

theorem stepV2_fold_nonzero (cfg : KLsConfig) (P1 P2 : List ℕ) (L : ℕ) (l : List ℕ) :
    ∀ acc : KLsEval, (∀ i ∈ l, i < L) →
    ((acc.statePairWithMaxTerm1based = 0 ∧ acc.contribOfMaxStatePairTerm = 0) ∨
      (1 ≤ acc.statePairWithMaxTerm1based ∧ acc.statePairWithMaxTerm1based ≤ L ∧
        acc.contribOfMaxStatePairTerm ≠ 0)) →
    (∃ i ∈ l, termV2 cfg (P1.getD i 0) (P2.getD i 0) i ≠ 0) →
    (1 ≤ (l.foldl (stepV2 cfg P1 P2) acc).statePairWithMaxTerm1based ∧
      (l.foldl (stepV2 cfg P1 P2) acc).statePairWithMaxTerm1based ≤ L ∧
      (l.foldl (stepV2 cfg P1 P2) acc).contribOfMaxStatePairTerm ≠ 0) := by
  induction l with
  | nil => rintro acc _ _ ⟨i, hi, _⟩; exact absurd hi (by simp)
  | cons i l ih =>
    intro acc hb hinv hex
    rw [List.foldl_cons]
    rcases hex with ⟨j, hj, hjne⟩
    rcases List.mem_cons.mp hj with rfl | hjl
    · -- the nonzero term is at the head: from here on the strong invariant
      -- holds and is preserved by the rest of the fold
      have hP : 1 ≤ (stepV2 cfg P1 P2 acc j).statePairWithMaxTerm1based ∧
          (stepV2 cfg P1 P2 acc j).statePairWithMaxTerm1based ≤ L ∧
          (stepV2 cfg P1 P2 acc j).contribOfMaxStatePairTerm ≠ 0 := by
        rcases lt_or_le |acc.contribOfMaxStatePairTerm|
            |termV2 cfg (P1.getD j 0) (P2.getD j 0) j| with hgt | hle
        · rw [stepV2_idx, stepV2_mx, if_pos hgt, if_pos hgt]
          have hiL : j < L := hb j (by simp)
          refine ⟨by omega, by omega, ?_⟩
          intro h0
          rw [h0] at hgt
          exact absurd hgt (not_lt.mpr (abs_nonneg _))
        · have hmxne : acc.contribOfMaxStatePairTerm ≠ 0 := by
            intro h0
            rw [h0] at hle
            simp only [abs_zero] at hle
            exact hjne (abs_eq_zero.mp (le_antisymm hle (abs_nonneg _)))
          rcases hinv with ⟨_, h0⟩ | hP0
          · exact absurd h0 hmxne
          · rw [stepV2_idx, stepV2_mx, if_neg (not_lt.mpr hle), if_neg (not_lt.mpr hle)]
            exact hP0
      exact stepV2_fold_preserve cfg P1 P2 L l (stepV2 cfg P1 P2 acc j)
        (fun j' hj' => hb j' (by simp [hj'])) hP
    · -- the nonzero term is in the tail: one step keeps the weak invariant
      have hinv1 :
          ((stepV2 cfg P1 P2 acc i).statePairWithMaxTerm1based = 0 ∧
            (stepV2 cfg P1 P2 acc i).contribOfMaxStatePairTerm = 0) ∨
          (1 ≤ (stepV2 cfg P1 P2 acc i).statePairWithMaxTerm1based ∧
            (stepV2 cfg P1 P2 acc i).statePairWithMaxTerm1based ≤ L ∧
            (stepV2 cfg P1 P2 acc i).contribOfMaxStatePairTerm ≠ 0) := by
        rcases lt_or_le |acc.contribOfMaxStatePairTerm|
            |termV2 cfg (P1.getD i 0) (P2.getD i 0) i| with hgt | hle
        · right
          rw [stepV2_idx, stepV2_mx, if_pos hgt, if_pos hgt]
          have hiL : i < L := hb i (by simp)
          refine ⟨by omega, by omega, ?_⟩
          intro h0
          rw [h0] at hgt
          exact absurd hgt (not_lt.mpr (abs_nonneg _))
        · rw [stepV2_idx, stepV2_mx, if_neg (not_lt.mpr hle), if_neg (not_lt.mpr hle)]
          exact hinv
      exact ih (stepV2 cfg P1 P2 acc i) (fun j' hj' => hb j' (by simp [hj'])) hinv1
        ⟨j, hjl, hjne⟩

/-- Claim C9: in variant 2's non-null evaluation,
`statePairWithMaxTerm_1based` starts at 0 and is only updated when some
term has nonzero absolute value, and the decomposition table is then read
at index `statePairWithMaxTerm_1based - 1` on an unsigned integer; the
lookup is in bounds exactly when at least one per-pair term is nonzero.
When every term is zero the unsigned subtraction `0 - 1` wraps to
`2^32 - 1`, past the end of the table. -/
theorem C9_dominant_pair_index_bounds (cfg : KLsConfig) (s : KLState)
    (hlen : s.P1numerators.length = (statePairTable cfg.numStates).length)
    (hsmall : (statePairTable cfg.numStates).length + 1 < 2 ^ 32) :
    ((∃ i, i < s.P1numerators.length ∧
        termV2 cfg (s.P1numerators.getD i 0) (s.P2numerators.getD i 0) i ≠ 0) ↔
      usub32 (computeMetricV2 cfg false s).statePairWithMaxTerm1based 1
        < (statePairTable cfg.numStates).length) ∧
    ((∀ i, i < s.P1numerators.length →
        termV2 cfg (s.P1numerators.getD i 0) (s.P2numerators.getD i 0) i = 0) →
      (computeMetricV2 cfg false s).statePairWithMaxTerm1based = 0) := by
  rw [computeMetricV2_false_eq]
  set L := s.P1numerators.length with hL
  have hzero_case : (∀ i, i < L →
      termV2 cfg (s.P1numerators.getD i 0) (s.P2numerators.getD i 0) i = 0) →
      ((List.range L).foldl (stepV2 cfg s.P1numerators s.P2numerators)
        ⟨0, List.replicate cfg.numStates 0, 0, 0⟩).statePairWithMaxTerm1based = 0 := by
    intro hz
    have := stepV2_fold_zero cfg s.P1numerators s.P2numerators (List.range L)
      ⟨0, List.replicate cfg.numStates 0, 0, 0⟩
      (fun i hi => hz i (List.mem_range.mp hi))
    exact this.1
  refine ⟨⟨?_, ?_⟩, hzero_case⟩
  · rintro ⟨i, hiL, hne⟩
    have hstrong := stepV2_fold_nonzero cfg s.P1numerators s.P2numerators L (List.range L)
      ⟨0, List.replicate cfg.numStates 0, 0, 0⟩
      (fun j hj => List.mem_range.mp hj) (Or.inl ⟨rfl, rfl⟩)
      ⟨i, List.mem_range.mpr hiL, hne⟩
    obtain ⟨h1, h2, _⟩ := hstrong
    rw [usub32_eq_sub (by omega) (by omega)]
    omega
  · intro hidx
    by_contra hno
    push_neg at hno
    have h0 := hzero_case (fun i hi => hno i hi)
    rw [h0] at hidx
    have : usub32 0 1 = 2 ^ 32 - 1 := by
      unfold usub32
      omega
    rw [this] at hidx
    omega

/-- Witness for C9: a one-state two-group configuration whose single term
is nonzero, so the dominant-pair index is 1 and the table lookup at index
0 is in bounds. -/
theorem C9_dominant_pair_index_bounds_witness :
    ((∃ i, i < (AccState.mk 0 0 (-1) (-1) ([1], [0]) : KLState).P1numerators.length ∧
        termV2 ⟨1, 2, 2, [5], [5], [0, 0]⟩
          ((AccState.mk 0 0 (-1) (-1) ([1], [0]) : KLState).P1numerators.getD i 0)
          ((AccState.mk 0 0 (-1) (-1) ([1], [0]) : KLState).P2numerators.getD i 0) i ≠ 0) ↔
      usub32 (computeMetricV2 ⟨1, 2, 2, [5], [5], [0, 0]⟩ false
          (AccState.mk 0 0 (-1) (-1) ([1], [0]))).statePairWithMaxTerm1based 1
        < (statePairTable 1).length) ∧
    ((∀ i, i < (AccState.mk 0 0 (-1) (-1) ([1], [0]) : KLState).P1numerators.length →
        termV2 ⟨1, 2, 2, [5], [5], [0, 0]⟩
          ((AccState.mk 0 0 (-1) (-1) ([1], [0]) : KLState).P1numerators.getD i 0)
          ((AccState.mk 0 0 (-1) (-1) ([1], [0]) : KLState).P2numerators.getD i 0) i = 0) →
      (computeMetricV2 ⟨1, 2, 2, [5], [5], [0, 0]⟩ false
          (AccState.mk 0 0 (-1) (-1) ([1], [0]))).statePairWithMaxTerm1based = 0) :=
  C9_dominant_pair_index_bounds ⟨1, 2, 2, [5], [5], [0, 0]⟩
    (AccState.mk 0 0 (-1) (-1) ([1], [0]))
    (by simp [AccState.P1numerators, statePairTable]) (by simp [statePairTable])

theorem tri_succ (r : ℕ) : (r + 1) * (r + 2) / 2 = r * (r + 1) / 2 + (r + 1) := by
  obtain ⟨k, hk⟩ := Nat.even_mul_succ_self r
  have h2 : (r + 1) * (r + 2) = r * (r + 1) + 2 * (r + 1) := by ring
  omega

theorem tri_mono {a b : ℕ} (h : a ≤ b) : a * (a + 1) / 2 ≤ b * (b + 1) / 2 :=
  Nat.div_le_div_right (Nat.mul_le_mul h (by omega))

theorem exists_tri_decomp (d : ℕ) : ∃ r c, c ≤ r ∧ d = r * (r + 1) / 2 + c := by
  induction d with
  | zero => exact ⟨0, 0, Nat.le_refl 0, rfl⟩
  | succ d ih =>
    obtain ⟨r, c, hc, hd⟩ := ih
    rcases Nat.lt_or_ge c r with hlt | hge
    · exact ⟨r, c + 1, by omega, by omega⟩
    · refine ⟨r + 1, 0, by omega, ?_⟩
      rw [tri_succ]
      omega

theorem fudgedRow_eq (d r : ℕ) (hlo : r * (r + 1) / 2 ≤ d)
    (hhi : d < (r + 1) * (r + 2) / 2) (hr : r ≤ 98) :
    (Nat.sqrt (2500 * (1 + 8 * d)) - 49) / 100 = r := by
  obtain ⟨k, hk⟩ := Nat.even_mul_succ_self r
  have hA : r * (r + 1) = r * r + r := by ring
  have hup : d ≤ r * (r + 1) / 2 + r := by
    rw [tri_succ] at hhi
    omega
  have hsq1 : (100 * r + 50) * (100 * r + 50)
      = 10000 * (r * r) + 10000 * r + 2500 := by ring
  have hsq2 : (100 * r + 149) * (100 * r + 149)
      = 10000 * (r * r) + 29800 * r + 22201 := by ring
  have hlow : (100 * r + 50) * (100 * r + 50) ≤ 2500 * (1 + 8 * d) := by omega
  have hhigh : 2500 * (1 + 8 * d) < (100 * r + 149) * (100 * r + 149) := by omega
  have ht1 : 100 * r + 50 ≤ Nat.sqrt (2500 * (1 + 8 * d)) := Nat.le_sqrt.mpr hlow
  have ht2 : Nat.sqrt (2500 * (1 + 8 * d)) < 100 * r + 149 := Nat.sqrt_lt.mpr hhigh
  omega

theorem decompEntry_closed (n r c : ℕ) (hc : c ≤ r) (hrn : r < n) (hn : n ≤ 99) :
    decompEntry n (n * (n + 1) / 2 - 1 - (r * (r + 1) / 2 + c)) = (n - r, n - c) ∧
    r * (r + 1) / 2 + c ≤ n * (n + 1) / 2 - 1 := by
  have htrin : 1 ≤ n * (n + 1) / 2 := by
    have h := tri_mono (show 1 ≤ n by omega)
    norm_num at h
    omega
  have hbound : n * (n + 1) / 2 ≤ 4950 := by
    have h := tri_mono hn
    norm_num at h
    omega
  have hdn : r * (r + 1) / 2 + c ≤ n * (n + 1) / 2 - 1 := by
    have h1 : (r + 1) * (r + 2) / 2 ≤ n * (n + 1) / 2 := tri_mono (by omega)
    rw [tri_succ] at h1
    omega
  refine ⟨?_, hdn⟩
  set d := r * (r + 1) / 2 + c with hddef
  have hid : n * (n + 1) / 2 - 1 - (n * (n + 1) / 2 - 1 - d) = d := by omega
  have hrow : (Nat.sqrt (2500 * (1 + 8 * d)) - 49) / 100 = r :=
    fudgedRow_eq d r (by omega) (by rw [tri_succ]; omega) (by omega)
  simp only [decompEntry]
  rw [hid, hrow]
  have hdc : (if d ≤ 2 then (if d = 2 then 1 else 0)
      else usub32 d (r * (r + 1) / 2)) = c := by
    rcases Nat.lt_or_ge d 3 with hedge | hbig
    · have hr1 : r ≤ 1 := by
        by_contra hr2
        push_neg at hr2
        have h := tri_mono (show 2 ≤ r by omega)
        norm_num at h
        omega
      interval_cases r
      · interval_cases c
        · rw [hddef]
          norm_num
      · interval_cases c
        · rw [hddef]
          norm_num
        · rw [hddef]
          norm_num
    · rw [if_neg (by omega), usub32_eq_sub (by omega) (by omega)]
      omega
  rw [hdc, usub32_eq_sub (show r ≤ n by omega) (show n < 2 ^ 32 by omega),
    usub32_eq_sub (show c ≤ n by omega) (show n < 2 ^ 32 by omega)]

theorem decompEntry_key (n : ℕ) (hn99 : n ≤ 99) :
    ∀ id ∈ Set.Iio (n * (n + 1) / 2), ∃ r c, c ≤ r ∧ r < n ∧
      id = n * (n + 1) / 2 - 1 - (r * (r + 1) / 2 + c) ∧
      decompEntry n id = (n - r, n - c) := by
  intro id hid
  rw [Set.mem_Iio] at hid
  obtain ⟨r, c, hc, hd⟩ := exists_tri_decomp (n * (n + 1) / 2 - 1 - id)
  have hrn : r < n := by
    by_contra hge
    push_neg at hge
    have h := tri_mono hge
    omega
  have hidr : id = n * (n + 1) / 2 - 1 - (r * (r + 1) / 2 + c) := by omega
  obtain ⟨hdec, _⟩ := decompEntry_closed n r c hc hrn hn99
  exact ⟨r, c, hc, hrn, hidr, by rw [hidr]; exact hdec⟩

/-- Concrete square-root values used to evaluate `decompEntry` at
`numStates = 3` and at `numStates = 100`, `id = 0`. -/
theorem sqrt_vals :
    Nat.sqrt 2500 = 50 ∧ Nat.sqrt 22500 = 150 ∧ Nat.sqrt 42500 = 206 ∧
    Nat.sqrt 62500 = 250 ∧ Nat.sqrt 82500 = 287 ∧ Nat.sqrt 102500 = 320 ∧
    Nat.sqrt 100982500 = 10049 := by
  refine ⟨?_, ?_, ?_, ?_, ?_, ?_, ?_⟩
  · rw [show 2500 = 50 * 50 from rfl]
    exact Nat.sqrt_eq 50
  · rw [show 22500 = 150 * 150 from rfl]
    exact Nat.sqrt_eq 150
  · rw [show 42500 = 206 * 206 + 64 from rfl]
    exact Nat.sqrt_add_eq 206 (by norm_num)
  · rw [show 62500 = 250 * 250 from rfl]
    exact Nat.sqrt_eq 250
  · rw [show 82500 = 287 * 287 + 131 from rfl]
    exact Nat.sqrt_add_eq 287 (by norm_num)
  · rw [show 102500 = 320 * 320 + 100 from rfl]
    exact Nat.sqrt_add_eq 320 (by norm_num)
  · rw [show 100982500 = 10049 * 10049 + 99 from rfl]
    exact Nat.sqrt_add_eq 10049 (by norm_num)


/-- Counterexample to C2 as stated: for `numStates = 3` identifier 0
decodes to `(1,1)`, not `(3,3)` — the table enumerates the upper triangle
from `(1,1)` upward, so the claimed list is reversed.  Moreover the
bijection part fails for `numStates ≥ 100`: at `numStates = 100`,
identifier 0 decodes to `(0, 101)` (the `+0.01` fudge overshoots the
triangular root there and the unsigned column subtraction wraps), which
lies outside the set of pairs `1 ≤ i ≤ j ≤ numStates`. -/
theorem C2_decode_counterexample :
    decompEntry 3 0 = (1, 1) ∧ decompEntry 3 0 ≠ (3, 3) ∧
    decompEntry 100 0 = (0, 101) ∧ ¬(1 ≤ (decompEntry 100 0).1) := by
  obtain ⟨-, -, -, -, -, h102500, h100982500⟩ := sqrt_vals
  have h3 : decompEntry 3 0 = (1, 1) := by
    simp only [decompEntry]
    norm_num [h102500]
    norm_num [usub32]
  have h100 : decompEntry 100 0 = (0, 101) := by
    simp only [decompEntry]
    norm_num [h100982500]
    norm_num [usub32]
  refine ⟨h3, by rw [h3]; decide, h100, by rw [h100]; decide⟩

/-- Claim C2, amended: the decomposition table is a bijection from
identifiers `{0 .. numStates(numStates+1)/2 - 1}` onto the unordered
pairs `{(i,j) : 1 ≤ i ≤ j ≤ numStates}` for `1 ≤ numStates ≤ 99` (for
`numStates ≥ 100` the `+0.01` fudge in the float triangular root breaks
the table, see the counterexample), and the table enumerates the upper
triangle upward from `(1,1)`: for `numStates = 3`, identifiers 0..5
decode to `(1,1),(1,2),(1,3),(2,2),(2,3),(3,3)`. -/
theorem C2_indexDecomposition_bijection :
    (∀ n : ℕ, 1 ≤ n → n ≤ 99 →
      Set.BijOn (fun id => decompEntry n id) (Set.Iio (n * (n + 1) / 2))
        {p : ℕ × ℕ | 1 ≤ p.1 ∧ p.1 ≤ p.2 ∧ p.2 ≤ n}) ∧
    statePairTable 3 = [(1, 1), (1, 2), (1, 3), (2, 2), (2, 3), (3, 3)] := by
  constructor
  · intro n hn1 hn99
    have htrin : 1 ≤ n * (n + 1) / 2 := by
      have h := tri_mono (show 1 ≤ n by omega)
      norm_num at h
      omega
    refine ⟨?_, ?_, ?_⟩
    · -- maps into the upper triangle
      intro id hid
      obtain ⟨r, c, hc, hrn, _, hdec⟩ := decompEntry_key n hn99 id hid
      have hdec' : (fun id => decompEntry n id) id = (n - r, n - c) := hdec
      rw [hdec']
      exact ⟨show 1 ≤ n - r by omega, show n - r ≤ n - c by omega,
        show n - c ≤ n by omega⟩
    · -- injective on the identifier range
      intro a ha b hb hab
      obtain ⟨r1, c1, hc1, hrn1, hida, hdeca⟩ := decompEntry_key n hn99 a ha
      obtain ⟨r2, c2, hc2, hrn2, hidb, hdecb⟩ := decompEntry_key n hn99 b hb
      have hab' : (n - r1, n - c1) = (n - r2, n - c2) := by
        rw [← hdeca, ← hdecb]
        exact hab
      rw [Prod.mk.injEq] at hab'
      obtain ⟨h1, h2⟩ := hab'
      have hr : r1 = r2 := by omega
      have hcc : c1 = c2 := by omega
      rw [hida, hidb, hr, hcc]
    · -- surjective onto the upper triangle
      intro p hp
      obtain ⟨hp1, hp12, hp2n⟩ := hp
      obtain ⟨hdec, hle⟩ :=
        decompEntry_closed n (n - p.1) (n - p.2) (by omega) (by omega) hn99
      refine ⟨n * (n + 1) / 2 - 1 - ((n - p.1) * (n - p.1 + 1) / 2 + (n - p.2)),
        ?_, ?_⟩
      · rw [Set.mem_Iio]
        omega
      · have h1 : n - (n - p.1) = p.1 := by omega
        have h2 : n - (n - p.2) = p.2 := by omega
        show decompEntry n _ = p
        rw [hdec, h1, h2]
  · -- the concrete table for numStates = 3
    obtain ⟨h2500, h22500, h42500, h62500, h82500, h102500, -⟩ := sqrt_vals
    have e0 : decompEntry 3 0 = (1, 1) := by
      simp only [decompEntry]
      norm_num [h102500]
      norm_num [usub32]
    have e1 : decompEntry 3 1 = (1, 2) := by
      simp only [decompEntry]
      norm_num [h82500]
      norm_num [usub32]
    have e2 : decompEntry 3 2 = (1, 3) := by
      simp only [decompEntry]
      norm_num [h62500]
      norm_num [usub32]
    have e3 : decompEntry 3 3 = (2, 2) := by
      simp only [decompEntry]
      norm_num [h42500]
      norm_num [usub32]
    have e4 : decompEntry 3 4 = (2, 3) := by
      simp only [decompEntry]
      norm_num [h22500]
      norm_num [usub32]
    have e5 : decompEntry 3 5 = (3, 3) := by
      simp only [decompEntry]
      norm_num [h2500]
      norm_num [usub32]
    unfold statePairTable
    rw [show (3 * (3 + 1) / 2 : ℕ) = 6 from rfl,
      show List.range 6 = [0, 1, 2, 3, 4, 5] from rfl]
    simp only [List.map_cons, List.map_nil]
    rw [e0, e1, e2, e3, e4, e5]

/-- Witness for C2 (amended) at `numStates = 3`. -/
theorem C2_indexDecomposition_bijection_witness :
    Set.BijOn (fun id => decompEntry 3 id) (Set.Iio (3 * (3 + 1) / 2))
      {p : ℕ × ℕ | 1 ≤ p.1 ∧ p.1 ≤ p.2 ∧ p.2 ≤ 3} :=
  C2_indexDecomposition_bijection.1 3 (by decide) (by decide)
